import Mathlib

/-!
Shallow embedding of the interactive chess session controller
(`ChessPage` in `src/src/app/chess/chess.page.spec.ts`, the component class
appended after the test stanza). The rules engine (chess.js) is an external
collaborator: it is modelled as an interface of pure functions over an opaque
game-state type `γ`, exactly mirroring the query/apply surface the controller
uses. All controller methods that the claims mention are translated
statement-by-statement from the TypeScript source. DOM/audio side effects are
recorded as an append-only list of emitted cues; the `setTimeout` used for the
deferred game-over reveal is modelled as an explicit pending record plus a
`fireGameOverTimeout` step; the `setInterval` clock tick closure is the
explicit step function `clockTick`.
-/

namespace MegClone

/-- Piece / player colour, chess.js `'w' | 'b'`. -/
inductive Color
  | w
  | b
deriving DecidableEq

/-- Kinds of audio cues, the argument type of `playSound` in the source. -/
inductive CueKind
  | move
  | capture
  | castle
  | check
  | gameover
  | illegal
deriving DecidableEq

/-- Observable side effects emitted by the controller: `playSound` calls,
the check flash (`triggerCheckFlash`) and the confetti celebration
(`launchConfetti`). -/
inductive Cue
  | sound (k : CueKind)
  | checkFlash
  | confetti
deriving DecidableEq

/-- A board piece as returned by chess.js `game.get`. -/
structure Piece where
  ptype : Char
  color : Color
deriving DecidableEq

/-- A chess.js verbose `Move` record, restricted to the fields the
controller reads: `from`, `to`, `san`, `color`, `flags` (the flag string,
modelled as its list of characters so that `flags.includes(c)` becomes
`flags.contains c`), and `captured` (truthiness of the captured-piece
field). -/
structure Mv where
  fromSq : String
  toSq : String
  san : String
  color : Color
  flags : List Char
  captured : Bool
deriving DecidableEq

/-- Reason field of the `gameOver` record. -/
inductive Reason
  | checkmate
  | stalemate
  | draw
  | time
deriving DecidableEq

/-- The `gameOver` signal payload
`{ reason, message, winner }` from the source. -/
structure GORec where
  reason : Reason
  message : String
  winner : Option Color
deriving DecidableEq

/-- The `promotion` signal payload `{ ask, color, from, to }`. -/
structure Promo where
  ask : Bool
  color : Option Color
  fromSq : Option String
  toSq : Option String
deriving DecidableEq

/-- The `touchDrag` record (shared by pointer / mouse / touch drags),
restricted to the logic-bearing fields: source square, press origin,
threshold flag `moved`, hovered square. The ghost image and offsets are
presentation-only and omitted. -/
structure TouchDrag where
  fromSq : String
  startX : Int
  startY : Int
  moved : Bool
  currentOverSquare : Option String
deriving DecidableEq

/-- `PointerEvent.pointerType`. -/
inductive PointerKind
  | mouse
  | touch
  | pen
deriving DecidableEq

/-- chess.js promotion-piece choice `'q' | 'r' | 'b' | 'n'`. -/
inductive PromotePiece
  | q
  | r
  | b
  | n
deriving DecidableEq

/-- The rules-engine (chess.js) query/apply surface used by the controller.
`γ` is the opaque engine state; move application and undo return the new
engine state, mirroring the in-place mutation of `this.game`. -/
structure EngineIface (γ : Type) where
  turn : γ → Color
  isCheck : γ → Bool
  isCheckmate : γ → Bool
  isStalemate : γ → Bool
  isGameOver : γ → Bool
  pieceAt : γ → String → Option Piece
  movesFrom : γ → String → List Mv
  applyFromTo : γ → String → String → Option (Mv × γ)
  applyPromo : γ → String → String → PromotePiece → Option (Mv × γ)
  applySan : γ → String → Option (Mv × γ)
  undoMove : γ → Option (Mv × γ)
  resetGame : γ → γ

/-- The controller's session state: every `ChessPage` field the claims touch.
`pendingGameOver` models the `gameOverTimeoutId` timeout together with the
record it would set; `suppressActive` models
`performance.now() < suppressClickUntil` at the time of a click; `cues` is
the trace of emitted cues. -/
structure Session (γ : Type) where
  game : γ
  redoStack : List Mv
  selected : Option String
  lastMoveSquares : List String
  gameOver : Option GORec
  pendingGameOver : Option GORec
  promotion : Promo
  soundOn : Bool
  baseMs : Int
  incrementMs : Int
  whiteTimeMs : Int
  blackTimeMs : Int
  activeColor : Color
  running : Bool
  suppressActive : Bool
  touchDrag : Option TouchDrag
  cues : List Cue
deriving DecidableEq

variable {γ : Type}

/-- `playSound(kind)`: records the cue decision. -/
def playSound (k : CueKind) (s : Session γ) : Session γ :=
  { s with cues := s.cues ++ [Cue.sound k] }

/-- `triggerCheckFlash()`: records the check flash. -/
def triggerCheckFlash (s : Session γ) : Session γ :=
  { s with cues := s.cues ++ [Cue.checkFlash] }

/-- `launchConfetti()`: records the celebration effect. -/
def launchConfetti (s : Session γ) : Session γ :=
  { s with cues := s.cues ++ [Cue.confetti] }

/-- `pauseClocks()`: clears the interval handle and sets `running` false. -/
def pauseClocks (s : Session γ) : Session γ :=
  { s with running := false }

/-- `startClocks()` minus the interval registration: idempotent start. -/
def startClocks (s : Session γ) : Session γ :=
  if s.running then s else { s with running := true }

/-- `clearSelection()`. -/
def clearSelection (s : Session γ) : Session γ :=
  { s with selected := none, lastMoveSquares := [] }

/-- `dismissGameOver()`: clears the record and cancels the pending timeout. -/
def dismissGameOver (s : Session γ) : Session γ :=
  { s with gameOver := none, pendingGameOver := none }

/-- The deferred (1500 ms) `setTimeout` callback scheduled by
`updateGameOverBanner` / `onFlag` firing: sets the visible `gameOver`
record and clears the handle. Firing with nothing scheduled is a no-op. -/
def fireGameOverTimeout (s : Session γ) : Session γ :=
  match s.pendingGameOver with
  | some r => { s with gameOver := some r, pendingGameOver := none }
  | none => s

/-- `updateGameOverBanner()`. -/
def updateGameOverBanner (E : EngineIface γ) (s : Session γ) : Session γ :=
  if E.isGameOver s.game then
    let s1 := pauseClocks s
    if E.isCheckmate s1.game then
      let winnerColor : Color := if E.turn s1.game = Color.w then Color.b else Color.w
      let s2 := launchConfetti s1
      let s3 := playSound CueKind.gameover s2
      { s3 with pendingGameOver := some ⟨Reason.checkmate, "by checkmate", some winnerColor⟩ }
    else if E.isStalemate s1.game then
      { s1 with gameOver := some ⟨Reason.stalemate, "by stalemate", none⟩ }
    else
      { s1 with gameOver := some ⟨Reason.draw, "draw", none⟩ }
  else
    { s with gameOver := none }

/-- `onFlag()`. -/
def onFlag (s : Session γ) : Session γ :=
  let s1 := pauseClocks s
  let winnerColor : Color := if s1.whiteTimeMs ≤ 0 then Color.b else Color.w
  let s2 := launchConfetti s1
  let s3 := playSound CueKind.gameover s2
  { s3 with pendingGameOver := some ⟨Reason.time, "on time", some winnerColor⟩ }

/-- The tick closure created inside `startClocks()` and run every 100 ms
while the interval is active. -/
def clockTick (E : EngineIface γ) (s : Session γ) : Session γ :=
  let nowTurn := E.turn s.game
  if s.promotion.ask then s
  else
    let s1 :=
      if nowTurn = Color.w then { s with whiteTimeMs := s.whiteTimeMs - 100 }
      else { s with blackTimeMs := s.blackTimeMs - 100 }
    if s1.whiteTimeMs ≤ 0 ∨ s1.blackTimeMs ≤ 0 then onFlag s1 else s1

/-- The sound block of `afterMoveUpdate` (the `if (this.soundOn())` section
choosing exactly one cue with priority gameover > check > castle > capture >
move; checkmate defers its cue to `updateGameOverBanner`). -/
def moveSoundStep (E : EngineIface γ) (s1 : Session γ) (m : Mv) : Session γ :=
  if s1.soundOn then
    let isCastle := m.flags.contains 'k' || m.flags.contains 'q'
    let isCapture := m.captured || m.flags.contains 'c' || m.flags.contains 'e'
    if E.isCheckmate s1.game then s1
    else if E.isCheck s1.game then playSound CueKind.check s1
    else if isCastle then playSound CueKind.castle s1
    else if isCapture then playSound CueKind.capture s1
    else playSound CueKind.move s1
  else s1

/-- `afterMoveUpdate(move)`: the shared commit protocol. The caller has
already applied the move to the engine (`s.game` is the post-move state). -/
def afterMoveUpdate (E : EngineIface γ) (s : Session γ) (m : Mv) : Session γ :=
  let s1 := { s with redoStack := [], selected := none,
                     lastMoveSquares := [m.fromSq, m.toSq] }
  let s2 := moveSoundStep E s1 m
  let s3 := updateGameOverBanner E s2
  if s3.incrementMs > 0 then
    if m.color = Color.w then { s3 with whiteTimeMs := s3.whiteTimeMs + s3.incrementMs }
    else { s3 with blackTimeMs := s3.blackTimeMs + s3.incrementMs }
  else s3

/-- `undo()`. -/
def undo (E : EngineIface γ) (s : Session γ) : Session γ :=
  match E.undoMove s.game with
  | none => s
  | some (m, g1) =>
    let s1 := { s with game := g1, redoStack := m :: s.redoStack,
                       selected := none, lastMoveSquares := [] }
    let s2 := updateGameOverBanner E s1
    if s2.soundOn then playSound CueKind.move s2 else s2

/-- `redo()`: pops the redo stack and re-applies the move by SAN. -/
def redo (E : EngineIface γ) (s : Session γ) : Session γ :=
  match s.redoStack with
  | [] => s
  | m :: rest =>
    let s1 := { s with redoStack := rest }
    match E.applySan s1.game m.san with
    | some (res, g2) => afterMoveUpdate E { s1 with game := g2 } res
    | none => s1

/-- `reset()`: engine reset, state wipe, banner refresh, clock reset. -/
def reset (E : EngineIface γ) (s : Session γ) : Session γ :=
  let s1 := { s with game := E.resetGame s.game, redoStack := [],
                     selected := none, lastMoveSquares := [] }
  let s2 := updateGameOverBanner E s1
  let s3 := pauseClocks s2
  { s3 with whiteTimeMs := s3.baseMs, blackTimeMs := s3.baseMs,
            activeColor := Color.w }

/-- `onSquareClick(name)`. -/
def onSquareClick (E : EngineIface γ) (s : Session γ) (name : String) : Session γ :=
  if s.suppressActive then s
  else if s.promotion.ask then s
  else if E.isGameOver s.game || s.gameOver.isSome then s
  else if !s.running then s
  else
    match s.selected with
    | none =>
      match E.pieceAt s.game name with
      | none => if E.isCheck s.game then triggerCheckFlash s else s
      | some piece =>
        if piece.color ≠ E.turn s.game then
          playSound CueKind.illegal (if E.isCheck s.game then triggerCheckFlash s else s)
        else if E.isCheck s.game && (E.movesFrom s.game name).isEmpty then
          playSound CueKind.illegal (triggerCheckFlash s)
        else { s with selected := some name }
    | some currentSel =>
      if currentSel = name then clearSelection s
      else
        match (E.movesFrom s.game currentSel).find? (fun m => m.toSq == name) with
        | none =>
          match E.pieceAt s.game name with
          | some piece =>
            if piece.color = E.turn s.game then
              if E.isCheck s.game && (E.movesFrom s.game name).isEmpty then
                playSound CueKind.illegal (triggerCheckFlash s)
              else { s with selected := some name }
            else clearSelection (playSound CueKind.illegal s)
          | none => clearSelection (playSound CueKind.illegal s)
        | some target =>
          if target.flags.contains 'p' then
            { s with promotion := ⟨true, some target.color, some target.fromSq, some target.toSq⟩ }
          else
            match E.applyFromTo s.game target.fromSq target.toSq with
            | some (res, g2) => afterMoveUpdate E { s with game := g2 } res
            | none => s

/-- `tryMove(from, to)`: the drag-drop resolution path. -/
def tryMove (E : EngineIface γ) (s : Session γ) (fromSq toSq : String) : Session γ :=
  if s.promotion.ask || E.isGameOver s.game || s.gameOver.isSome || !s.running then s
  else
    match (E.movesFrom s.game fromSq).find? (fun m => m.toSq == toSq) with
    | none => clearSelection (playSound CueKind.illegal s)
    | some target =>
      if target.flags.contains 'p' then
        { s with promotion := ⟨true, some target.color, some target.fromSq, some target.toSq⟩ }
      else
        match E.applyFromTo s.game target.fromSq target.toSq with
        | some (res, g2) => afterMoveUpdate E { s with game := g2 } res
        | none => s

/-- `promote(piece)`: resolves a pending promotion. The engine call happens
first, then the pending record is always cleared, then the commit runs only
if the engine accepted the move. -/
def promote (E : EngineIface γ) (s : Session γ) (piece : PromotePiece) : Session γ :=
  match s.promotion.ask, s.promotion.color, s.promotion.fromSq, s.promotion.toSq with
  | true, some _, some f, some t =>
    let res := E.applyPromo s.game f t piece
    let s1 := { s with promotion := ⟨false, none, none, none⟩ }
    match res with
    | some (m, g2) => afterMoveUpdate E { s1 with game := g2 } m
    | none => s1
  | _, _, _, _ => s

/-- `onPiecePointerDown(from, ev)`: non-mouse pointer press on a piece.
Creates the drag record; deliberately does not set `selected`. -/
def onPiecePointerDown (E : EngineIface γ) (s : Session γ) (fromSq : String)
    (ptype : PointerKind) (button : Int) (x y : Int) : Session γ :=
  if button ≠ 0 then s
  else if ptype = PointerKind.mouse then s
  else if s.promotion.ask || E.isGameOver s.game || s.gameOver.isSome then s
  else
    match E.pieceAt s.game fromSq with
    | none => playSound CueKind.illegal (if E.isCheck s.game then triggerCheckFlash s else s)
    | some piece =>
      if piece.color ≠ E.turn s.game then
        playSound CueKind.illegal (if E.isCheck s.game then triggerCheckFlash s else s)
      else if E.isCheck s.game && (E.movesFrom s.game fromSq).isEmpty then
        playSound CueKind.illegal (triggerCheckFlash s)
      else
        { s with touchDrag := some ⟨fromSq, x, y, false, none⟩ }

/-- `onGlobalPointerMove(ev)`. The source test
`Math.hypot(dx, dy) > 4` is modelled exactly on integer coordinates as
`dx * dx + dy * dy > 16`. The hovered square under the pointer is an input
(what `elementFromPoint` resolves to). -/
def onGlobalPointerMove (s : Session γ) (x y : Int) (overSquare : Option String) :
    Session γ :=
  match s.touchDrag with
  | none => s
  | some td =>
    let crossed : Bool :=
      !td.moved && decide ((x - td.startX) * (x - td.startX) + (y - td.startY) * (y - td.startY) > 16)
    let td1 := if crossed then { td with moved := true } else td
    let s1 := if crossed then { s with selected := some td.fromSq } else s
    let td2 :=
      if overSquare ≠ td1.currentOverSquare then { td1 with currentOverSquare := overSquare }
      else td1
    { s1 with touchDrag := some td2 }

/-- `onMouseDownPiece(from, ev)`: desktop mouse press on a piece.
Creates the drag record; deliberately does not set `selected`. -/
def onMouseDownPiece (E : EngineIface γ) (s : Session γ) (fromSq : String)
    (button : Int) (x y : Int) : Session γ :=
  if button ≠ 0 then s
  else if s.promotion.ask || E.isGameOver s.game || s.gameOver.isSome then s
  else
    match E.pieceAt s.game fromSq with
    | none => playSound CueKind.illegal (if E.isCheck s.game then triggerCheckFlash s else s)
    | some piece =>
      if piece.color ≠ E.turn s.game then
        playSound CueKind.illegal (if E.isCheck s.game then triggerCheckFlash s else s)
      else if E.isCheck s.game && (E.movesFrom s.game fromSq).isEmpty then
        playSound CueKind.illegal (triggerCheckFlash s)
      else
        { s with touchDrag := some ⟨fromSq, x, y, false, none⟩ }

/-- `onGlobalMouseMove(ev)`: same threshold logic as the pointer handler. -/
def onGlobalMouseMove (s : Session γ) (x y : Int) (overSquare : Option String) :
    Session γ :=
  match s.touchDrag with
  | none => s
  | some td =>
    let crossed : Bool :=
      !td.moved && decide ((x - td.startX) * (x - td.startX) + (y - td.startY) * (y - td.startY) > 16)
    let td1 := if crossed then { td with moved := true } else td
    let s1 := if crossed then { s with selected := some td.fromSq } else s
    let td2 :=
      if overSquare ≠ td1.currentOverSquare then { td1 with currentOverSquare := overSquare }
      else td1
    { s1 with touchDrag := some td2 }

/-- `onPieceTouchStart(from, ev)`: single-touch press on a piece. Unlike the
pointer and mouse handlers, this one sets `selected` immediately at the end
(source line `this.selected.set(from)`), and its illegal cue is guarded by
`soundOn`. -/
def onPieceTouchStart (E : EngineIface γ) (s : Session γ) (fromSq : String)
    (touchCount : Nat) (x y : Int) : Session γ :=
  if touchCount ≠ 1 then s
  else if s.promotion.ask || E.isGameOver s.game || s.gameOver.isSome then s
  else
    match E.pieceAt s.game fromSq with
    | none =>
      let s1 := if E.isCheck s.game then triggerCheckFlash s else s
      if s1.soundOn then playSound CueKind.illegal s1 else s1
    | some piece =>
      if piece.color ≠ E.turn s.game then
        let s1 := if E.isCheck s.game then triggerCheckFlash s else s
        if s1.soundOn then playSound CueKind.illegal s1 else s1
      else if E.isCheck s.game && (E.movesFrom s.game fromSq).isEmpty then
        let s1 := triggerCheckFlash s
        if s1.soundOn then playSound CueKind.illegal s1 else s1
      else
        { s with touchDrag := some ⟨fromSq, x, y, false, none⟩,
                 selected := some fromSq }

/-! ### Field-preservation lemmas for the helper operations -/

theorem updateGameOverBanner_game (E : EngineIface γ) (s : Session γ) :
    (updateGameOverBanner E s).game = s.game := by
  simp only [updateGameOverBanner, pauseClocks, launchConfetti, playSound]
  split
  · split
    · rfl
    · split <;> rfl
  · rfl

theorem updateGameOverBanner_redoStack (E : EngineIface γ) (s : Session γ) :
    (updateGameOverBanner E s).redoStack = s.redoStack := by
  simp only [updateGameOverBanner, pauseClocks, launchConfetti, playSound]
  split
  · split
    · rfl
    · split <;> rfl
  · rfl

theorem updateGameOverBanner_selected (E : EngineIface γ) (s : Session γ) :
    (updateGameOverBanner E s).selected = s.selected := by
  simp only [updateGameOverBanner, pauseClocks, launchConfetti, playSound]
  split
  · split
    · rfl
    · split <;> rfl
  · rfl

theorem updateGameOverBanner_lastMoveSquares (E : EngineIface γ) (s : Session γ) :
    (updateGameOverBanner E s).lastMoveSquares = s.lastMoveSquares := by
  simp only [updateGameOverBanner, pauseClocks, launchConfetti, playSound]
  split
  · split
    · rfl
    · split <;> rfl
  · rfl

theorem updateGameOverBanner_promotion (E : EngineIface γ) (s : Session γ) :
    (updateGameOverBanner E s).promotion = s.promotion := by
  simp only [updateGameOverBanner, pauseClocks, launchConfetti, playSound]
  split
  · split
    · rfl
    · split <;> rfl
  · rfl

theorem updateGameOverBanner_soundOn (E : EngineIface γ) (s : Session γ) :
    (updateGameOverBanner E s).soundOn = s.soundOn := by
  simp only [updateGameOverBanner, pauseClocks, launchConfetti, playSound]
  split
  · split
    · rfl
    · split <;> rfl
  · rfl

theorem updateGameOverBanner_incrementMs (E : EngineIface γ) (s : Session γ) :
    (updateGameOverBanner E s).incrementMs = s.incrementMs := by
  simp only [updateGameOverBanner, pauseClocks, launchConfetti, playSound]
  split
  · split
    · rfl
    · split <;> rfl
  · rfl

theorem updateGameOverBanner_whiteTimeMs (E : EngineIface γ) (s : Session γ) :
    (updateGameOverBanner E s).whiteTimeMs = s.whiteTimeMs := by
  simp only [updateGameOverBanner, pauseClocks, launchConfetti, playSound]
  split
  · split
    · rfl
    · split <;> rfl
  · rfl

theorem updateGameOverBanner_blackTimeMs (E : EngineIface γ) (s : Session γ) :
    (updateGameOverBanner E s).blackTimeMs = s.blackTimeMs := by
  simp only [updateGameOverBanner, pauseClocks, launchConfetti, playSound]
  split
  · split
    · rfl
    · split <;> rfl
  · rfl

theorem updateGameOverBanner_baseMs (E : EngineIface γ) (s : Session γ) :
    (updateGameOverBanner E s).baseMs = s.baseMs := by
  simp only [updateGameOverBanner, pauseClocks, launchConfetti, playSound]
  split
  · split
    · rfl
    · split <;> rfl
  · rfl

/-! ### Commit-protocol observables (claim C1) -/

/-- The observables the spec's commit protocol promises, relating the
session before the commit call (`pre`, whose clocks are still those at move
application) to the session it returns (`post`). -/
def CommitObs (pre post : Session γ) (m : Mv) : Prop :=
  post.redoStack = [] ∧ post.selected = none ∧
  post.lastMoveSquares = [m.fromSq, m.toSq] ∧
  (pre.incrementMs > 0 →
    (m.color = Color.w → post.whiteTimeMs = pre.whiteTimeMs + pre.incrementMs ∧
      post.blackTimeMs = pre.blackTimeMs) ∧
    (m.color = Color.b → post.blackTimeMs = pre.blackTimeMs + pre.incrementMs ∧
      post.whiteTimeMs = pre.whiteTimeMs))

theorem moveSoundStep_redoStack (E : EngineIface γ) (s : Session γ) (m : Mv) :
    (moveSoundStep E s m).redoStack = s.redoStack := by
  simp only [moveSoundStep, playSound]
  repeat' split
  all_goals rfl

theorem moveSoundStep_selected (E : EngineIface γ) (s : Session γ) (m : Mv) :
    (moveSoundStep E s m).selected = s.selected := by
  simp only [moveSoundStep, playSound]
  repeat' split
  all_goals rfl

theorem moveSoundStep_lastMoveSquares (E : EngineIface γ) (s : Session γ) (m : Mv) :
    (moveSoundStep E s m).lastMoveSquares = s.lastMoveSquares := by
  simp only [moveSoundStep, playSound]
  repeat' split
  all_goals rfl

theorem moveSoundStep_game (E : EngineIface γ) (s : Session γ) (m : Mv) :
    (moveSoundStep E s m).game = s.game := by
  simp only [moveSoundStep, playSound]
  repeat' split
  all_goals rfl

theorem moveSoundStep_promotion (E : EngineIface γ) (s : Session γ) (m : Mv) :
    (moveSoundStep E s m).promotion = s.promotion := by
  simp only [moveSoundStep, playSound]
  repeat' split
  all_goals rfl

theorem moveSoundStep_incrementMs (E : EngineIface γ) (s : Session γ) (m : Mv) :
    (moveSoundStep E s m).incrementMs = s.incrementMs := by
  simp only [moveSoundStep, playSound]
  repeat' split
  all_goals rfl

theorem moveSoundStep_whiteTimeMs (E : EngineIface γ) (s : Session γ) (m : Mv) :
    (moveSoundStep E s m).whiteTimeMs = s.whiteTimeMs := by
  simp only [moveSoundStep, playSound]
  repeat' split
  all_goals rfl

theorem moveSoundStep_blackTimeMs (E : EngineIface γ) (s : Session γ) (m : Mv) :
    (moveSoundStep E s m).blackTimeMs = s.blackTimeMs := by
  simp only [moveSoundStep, playSound]
  repeat' split
  all_goals rfl

theorem afterMoveUpdate_redoStack (E : EngineIface γ) (s : Session γ) (m : Mv) :
    (afterMoveUpdate E s m).redoStack = [] := by
  simp only [afterMoveUpdate]
  repeat' split
  all_goals simp [updateGameOverBanner_redoStack, moveSoundStep_redoStack]

theorem afterMoveUpdate_selected (E : EngineIface γ) (s : Session γ) (m : Mv) :
    (afterMoveUpdate E s m).selected = none := by
  simp only [afterMoveUpdate]
  repeat' split
  all_goals simp [updateGameOverBanner_selected, moveSoundStep_selected]

theorem afterMoveUpdate_lastMoveSquares (E : EngineIface γ) (s : Session γ) (m : Mv) :
    (afterMoveUpdate E s m).lastMoveSquares = [m.fromSq, m.toSq] := by
  simp only [afterMoveUpdate]
  repeat' split
  all_goals simp [updateGameOverBanner_lastMoveSquares, moveSoundStep_lastMoveSquares]

theorem afterMoveUpdate_game (E : EngineIface γ) (s : Session γ) (m : Mv) :
    (afterMoveUpdate E s m).game = s.game := by
  simp only [afterMoveUpdate]
  repeat' split
  all_goals simp [updateGameOverBanner_game, moveSoundStep_game]

theorem afterMoveUpdate_promotion (E : EngineIface γ) (s : Session γ) (m : Mv) :
    (afterMoveUpdate E s m).promotion = s.promotion := by
  simp only [afterMoveUpdate]
  repeat' split
  all_goals simp [updateGameOverBanner_promotion, moveSoundStep_promotion]

theorem afterMoveUpdate_whiteTimeMs (E : EngineIface γ) (s : Session γ) (m : Mv) :
    (afterMoveUpdate E s m).whiteTimeMs =
      if s.incrementMs > 0 ∧ m.color = Color.w then s.whiteTimeMs + s.incrementMs
      else s.whiteTimeMs := by
  simp only [afterMoveUpdate]
  repeat' split
  all_goals
    simp_all [updateGameOverBanner_whiteTimeMs, updateGameOverBanner_incrementMs,
      moveSoundStep_whiteTimeMs, moveSoundStep_incrementMs]

theorem afterMoveUpdate_blackTimeMs (E : EngineIface γ) (s : Session γ) (m : Mv) :
    (afterMoveUpdate E s m).blackTimeMs =
      if s.incrementMs > 0 ∧ m.color = Color.b then s.blackTimeMs + s.incrementMs
      else s.blackTimeMs := by
  simp only [afterMoveUpdate]
  repeat' split
  all_goals
    simp_all [updateGameOverBanner_blackTimeMs, updateGameOverBanner_incrementMs,
      moveSoundStep_blackTimeMs, moveSoundStep_incrementMs]
  all_goals (cases hc : m.color <;> simp_all)

theorem afterMoveUpdate_commitObs (E : EngineIface γ) (s : Session γ) (m : Mv) :
    CommitObs s (afterMoveUpdate E s m) m := by
  refine ⟨afterMoveUpdate_redoStack E s m, afterMoveUpdate_selected E s m,
    afterMoveUpdate_lastMoveSquares E s m, fun hinc => ⟨fun hw => ?_, fun hb => ?_⟩⟩
  · rw [afterMoveUpdate_whiteTimeMs, afterMoveUpdate_blackTimeMs]
    simp [hinc, hw]
  · rw [afterMoveUpdate_whiteTimeMs, afterMoveUpdate_blackTimeMs]
    have : m.color ≠ Color.w := by rw [hb]; intro h; cases h
    simp [hinc, hb, this]

theorem commitObs_of_fields (pre preB post : Session γ) (m : Mv)
    (h1 : preB.incrementMs = pre.incrementMs) (h2 : preB.whiteTimeMs = pre.whiteTimeMs)
    (h3 : preB.blackTimeMs = pre.blackTimeMs) (h : CommitObs preB post m) :
    CommitObs pre post m := by
  unfold CommitObs at h ⊢
  rw [h1, h2, h3] at h
  exact h

/-! ### Concrete stub engines and sessions for instantiating theorems -/

/-- The verbose move record for the scripted move e2-e4 of `toyEngine`. -/
def mvE4 : Mv :=
  { fromSq := "e2", toSq := "e4", san := "e4", color := Color.w,
    flags := ['b'], captured := false }

/-- A two-position stub rules engine: position `false` is the start,
`true` is the position after the single scripted move e2-e4, which can be
undone and redone. -/
def toyEngine : EngineIface Bool where
  turn g := if g then Color.b else Color.w
  isCheck _ := false
  isCheckmate _ := false
  isStalemate _ := false
  isGameOver _ := false
  pieceAt g sq := if g = false ∧ sq = "e2" then some ⟨'p', Color.w⟩ else none
  movesFrom g sq := if g = false ∧ sq = "e2" then [mvE4] else []
  applyFromTo g f t :=
    if g = false ∧ f = "e2" ∧ t = "e4" then some (mvE4, true) else none
  applyPromo _ _ _ _ := none
  applySan g san := if g = false ∧ san = "e4" then some (mvE4, true) else none
  undoMove g := if g then some (mvE4, false) else none
  resetGame _ := false

/-- A stub engine whose predicates are constants, used to drive the
game-over and selection branches on concrete inputs. -/
def flagEngine (t : Color) (chk mate stale over : Bool) (pc : Option Piece)
    (mvs : List Mv) : EngineIface Unit where
  turn _ := t
  isCheck _ := chk
  isCheckmate _ := mate
  isStalemate _ := stale
  isGameOver _ := over
  pieceAt _ _ := pc
  movesFrom _ _ := mvs
  applyFromTo _ _ _ := none
  applyPromo _ _ _ _ := none
  applySan _ _ := none
  undoMove _ := none
  resetGame g := g

/-- A fresh started session (clock running, nothing selected, no history). -/
def baseSession (g : γ) : Session γ :=
  { game := g, redoStack := [], selected := none, lastMoveSquares := [],
    gameOver := none, pendingGameOver := none,
    promotion := ⟨false, none, none, none⟩, soundOn := true,
    baseMs := 600000, incrementMs := 0, whiteTimeMs := 600000,
    blackTimeMs := 600000, activeColor := Color.w, running := true,
    suppressActive := false, touchDrag := none, cues := [] }

/-! ### Claim C1 -/

/-- C1: every successfully applied move — via the shared `afterMoveUpdate`
commit, and concretely on the redo, promotion-choice, drag-drop (`tryMove`)
and click-to-move (`onSquareClick`) paths — leaves `redoStack` empty,
`selected` null and `lastMoveSquares` = [from, to]; and when the configured
increment is positive, exactly `incrementMs` is added to the clock of the
side that just moved, after the move is applied, the opponent's clock
unchanged. -/
theorem commit_protocol_spec (E : EngineIface γ) :
    (∀ (s : Session γ) (m : Mv), CommitObs s (afterMoveUpdate E s m) m) ∧
    (∀ (s : Session γ) (m : Mv) (rest : List Mv) (m2 : Mv) (g2 : γ),
      s.redoStack = m :: rest →
      E.applySan s.game m.san = some (m2, g2) →
      CommitObs s (redo E s) m2) ∧
    (∀ (s : Session γ) (piece : PromotePiece) (f t : String) (c : Color)
      (m : Mv) (g2 : γ),
      s.promotion = ⟨true, some c, some f, some t⟩ →
      E.applyPromo s.game f t piece = some (m, g2) →
      CommitObs s (promote E s piece) m) ∧
    (∀ (s : Session γ) (f t : String) (tgt m : Mv) (g2 : γ),
      s.promotion.ask = false → E.isGameOver s.game = false →
      s.gameOver = none → s.running = true →
      (E.movesFrom s.game f).find? (fun mv => mv.toSq == t) = some tgt →
      tgt.flags.contains 'p' = false →
      E.applyFromTo s.game tgt.fromSq tgt.toSq = some (m, g2) →
      CommitObs s (tryMove E s f t) m) ∧
    (∀ (s : Session γ) (name cur : String) (tgt m : Mv) (g2 : γ),
      s.suppressActive = false → s.promotion.ask = false →
      E.isGameOver s.game = false → s.gameOver = none → s.running = true →
      s.selected = some cur → cur ≠ name →
      (E.movesFrom s.game cur).find? (fun mv => mv.toSq == name) = some tgt →
      tgt.flags.contains 'p' = false →
      E.applyFromTo s.game tgt.fromSq tgt.toSq = some (m, g2) →
      CommitObs s (onSquareClick E s name) m) := by
  refine ⟨fun s m => afterMoveUpdate_commitObs E s m, ?_, ?_, ?_, ?_⟩
  · intro s m rest m2 g2 hstack happly
    have hred : redo E s = afterMoveUpdate E
        { s with redoStack := rest, game := g2 } m2 := by
      simp only [redo, hstack, happly]
    rw [hred]
    exact commitObs_of_fields _ _ _ _ rfl rfl rfl (afterMoveUpdate_commitObs E _ m2)
  · intro s piece f t c m g2 hpromo happly
    have hprom : promote E s piece = afterMoveUpdate E
        { s with promotion := ⟨false, none, none, none⟩, game := g2 } m := by
      simp only [promote, hpromo, happly]
    rw [hprom]
    exact commitObs_of_fields _ _ _ _ rfl rfl rfl (afterMoveUpdate_commitObs E _ m)
  · intro s f t tgt m g2 hask hover hgo hrun hfind hflags happly
    have htm : tryMove E s f t = afterMoveUpdate E { s with game := g2 } m := by
      simp only [tryMove, hask, hover, hgo, hrun, hfind, hflags, happly,
        Option.isSome_none, Bool.or_self, Bool.or_false, Bool.false_or,
        Bool.not_true, if_false]
      simp
    rw [htm]
    exact commitObs_of_fields _ _ _ _ rfl rfl rfl (afterMoveUpdate_commitObs E _ m)
  · intro s name cur tgt m g2 hsup hask hover hgo hrun hsel hne hfind hflags happly
    have hsc : onSquareClick E s name = afterMoveUpdate E { s with game := g2 } m := by
      simp only [onSquareClick, hsup, hask, hover, hgo, hrun, hsel, hne, hfind,
        hflags, happly, Option.isSome_none, Bool.or_false, Bool.not_true,
        if_false]
      simp [hne]
    rw [hsc]
    exact commitObs_of_fields _ _ _ _ rfl rfl rfl (afterMoveUpdate_commitObs E _ m)

/-- Session used to instantiate the C1 theorem: one redoable scripted move
and a 5-second increment. -/
def sC1 : Session Bool :=
  { baseSession false with redoStack := [mvE4], incrementMs := 5000 }

/-- C1 witness: the redo path of `commit_protocol_spec` evaluated on the
stub engine with a positive increment. -/
theorem commit_protocol_spec_witness :
    sC1.redoStack = [mvE4] ∧
    toyEngine.applySan sC1.game mvE4.san = some (mvE4, true) ∧
    (0 : Int) < sC1.incrementMs ∧ mvE4.color = Color.w ∧
    (redo toyEngine sC1).redoStack = [] ∧
    (redo toyEngine sC1).selected = none ∧
    (redo toyEngine sC1).lastMoveSquares = ["e2", "e4"] ∧
    (redo toyEngine sC1).whiteTimeMs = sC1.whiteTimeMs + 5000 ∧
    (redo toyEngine sC1).blackTimeMs = sC1.blackTimeMs := by
  have h := (commit_protocol_spec (γ := Bool) toyEngine).2.1 sC1 mvE4 [] mvE4 true
    (by decide) (by decide)
  obtain ⟨h1, h2, h3, h4⟩ := h
  have h5 := (h4 (by decide)).1 (by decide)
  exact ⟨by decide, by decide, by decide, by decide, h1, h2, h3, h5.1, h5.2⟩

/-! ### Claim C2 -/

/-- C2: for a committed non-promotion move, undo followed immediately by redo
restores the board position and the `lastMoveSquares` highlight pair to
exactly their values before the undo. The engine round trip (undo returns a
move whose SAN re-applies to the original position with the same from/to
squares) is the trusted chess.js contract, taken as hypotheses. -/
theorem undo_redo_round_trip (E : EngineIface γ) (s : Session γ) (m m2 : Mv) (g1 : γ)
    (hundo : E.undoMove s.game = some (m, g1))
    (hredo : E.applySan g1 m.san = some (m2, s.game))
    (hf : m2.fromSq = m.fromSq) (ht : m2.toSq = m.toSq)
    (hlm : s.lastMoveSquares = [m.fromSq, m.toSq])
    (hp : m.flags.contains 'p' = false) :
    (redo E (undo E s)).game = s.game ∧
    (redo E (undo E s)).lastMoveSquares = s.lastMoveSquares := by
  have hug : (undo E s).game = g1 := by
    simp only [undo, hundo]
    split <;> simp [playSound, updateGameOverBanner_game]
  have hur : (undo E s).redoStack = m :: s.redoStack := by
    simp only [undo, hundo]
    split <;> simp [playSound, updateGameOverBanner_redoStack]
  have hred : redo E (undo E s) = afterMoveUpdate E
      { undo E s with redoStack := s.redoStack, game := s.game } m2 := by
    simp only [redo, hur, hug, hredo]
  constructor
  · rw [hred, afterMoveUpdate_game]
  · rw [hred, afterMoveUpdate_lastMoveSquares, hf, ht, hlm]

/-- Session used to instantiate the C2 theorem: the position after the
scripted move, with its highlight pair set. -/
def sC2 : Session Bool :=
  { baseSession true with lastMoveSquares := ["e2", "e4"] }

/-- C2 witness: the round trip evaluated on the stub engine. -/
theorem undo_redo_round_trip_witness :
    toyEngine.undoMove sC2.game = some (mvE4, false) ∧
    toyEngine.applySan false mvE4.san = some (mvE4, sC2.game) ∧
    sC2.lastMoveSquares = [mvE4.fromSq, mvE4.toSq] ∧
    mvE4.flags.contains 'p' = false ∧
    (redo toyEngine (undo toyEngine sC2)).game = sC2.game ∧
    (redo toyEngine (undo toyEngine sC2)).lastMoveSquares = sC2.lastMoveSquares := by
  have h := undo_redo_round_trip (γ := Bool) toyEngine sC2 mvE4 mvE4 false
    (by decide) (by decide) rfl rfl (by decide) (by decide)
  exact ⟨by decide, by decide, by decide, by decide, h.1, h.2⟩

/-! ### Claim C3 -/

/-- The mover-side decrement of one tick: white's clock after the tick's
deduction. -/
def tickedWhite (E : EngineIface γ) (s : Session γ) : Int :=
  if E.turn s.game = Color.w then s.whiteTimeMs - 100 else s.whiteTimeMs

/-- Black's clock after the tick's deduction. -/
def tickedBlack (E : EngineIface γ) (s : Session γ) : Int :=
  if E.turn s.game = Color.w then s.blackTimeMs else s.blackTimeMs - 100

theorem onFlag_whiteTimeMs (s : Session γ) : (onFlag s).whiteTimeMs = s.whiteTimeMs := rfl

theorem onFlag_blackTimeMs (s : Session γ) : (onFlag s).blackTimeMs = s.blackTimeMs := rfl

theorem onFlag_running (s : Session γ) : (onFlag s).running = false := rfl

theorem onFlag_pendingGameOver (s : Session γ) :
    (onFlag s).pendingGameOver =
      some ⟨Reason.time, "on time",
        some (if s.whiteTimeMs ≤ 0 then Color.b else Color.w)⟩ := rfl

/-- C3: a clock tick with a promotion pending changes nothing at all (in
particular no decrement, no flag-fall check, `running` untouched); any other
tick subtracts the 100 ms period from the clock of exactly the rules
engine's side to move, leaves the other clock unchanged, and then checks
flag-fall: if neither clock has reached zero the tick changes nothing else,
otherwise it pauses the clock and schedules the time-forfeit record. -/
theorem clock_tick_spec (E : EngineIface γ) (s : Session γ) :
    (s.promotion.ask = true → clockTick E s = s) ∧
    (s.promotion.ask = false →
      (clockTick E s).whiteTimeMs = tickedWhite E s ∧
      (clockTick E s).blackTimeMs = tickedBlack E s ∧
      (¬(tickedWhite E s ≤ 0 ∨ tickedBlack E s ≤ 0) →
        clockTick E s =
          { s with whiteTimeMs := tickedWhite E s, blackTimeMs := tickedBlack E s }) ∧
      ((tickedWhite E s ≤ 0 ∨ tickedBlack E s ≤ 0) →
        (clockTick E s).running = false ∧
        (clockTick E s).pendingGameOver =
          some ⟨Reason.time, "on time",
            some (if tickedWhite E s ≤ 0 then Color.b else Color.w)⟩)) := by
  constructor
  · intro h
    simp only [clockTick, h, if_true]
  · intro h
    have hdef : clockTick E s =
        (if tickedWhite E s ≤ 0 ∨ tickedBlack E s ≤ 0 then
          onFlag { s with whiteTimeMs := tickedWhite E s,
                          blackTimeMs := tickedBlack E s }
        else { s with whiteTimeMs := tickedWhite E s,
                      blackTimeMs := tickedBlack E s }) := by
      simp only [clockTick, h, tickedWhite, tickedBlack]
      cases ht : E.turn s.game <;> simp [ht]
    by_cases hflag : tickedWhite E s ≤ 0 ∨ tickedBlack E s ≤ 0
    · rw [hdef, if_pos hflag]
      refine ⟨onFlag_whiteTimeMs _, onFlag_blackTimeMs _,
        fun hn => absurd hflag hn, fun _ => ⟨onFlag_running _, ?_⟩⟩
      rw [onFlag_pendingGameOver]
    · rw [hdef, if_neg hflag]
      exact ⟨rfl, rfl, fun _ => rfl, fun hc => absurd hc hflag⟩

/-- Engine for the C3/C4 flag-fall instantiations: white to move, no
terminal predicate set. -/
def engWhite : EngineIface Unit := flagEngine Color.w false false false false none []

/-- Session with white about to flag. -/
def sC3 : Session Unit := { baseSession () with whiteTimeMs := 50 }

/-- C3 witness: one tick on a white clock at 50 ms drives it to -50 ms,
pauses the clock and schedules the time forfeit with black as winner. -/
theorem clock_tick_spec_witness :
    sC3.promotion.ask = false ∧
    (clockTick engWhite sC3).whiteTimeMs = tickedWhite engWhite sC3 ∧
    (clockTick engWhite sC3).running = false ∧
    (clockTick engWhite sC3).pendingGameOver =
      some ⟨Reason.time, "on time", some Color.b⟩ := by
  have h := (clock_tick_spec engWhite sC3).2 rfl
  have hflag : tickedWhite engWhite sC3 ≤ 0 ∨ tickedBlack engWhite sC3 ≤ 0 := by decide
  refine ⟨rfl, h.1, (h.2.2.2 hflag).1, ?_⟩
  rw [(h.2.2.2 hflag).2]
  decide

/-! ### Claim C4 -/

/-- C4: winner attribution in the game-over record. For checkmate the
(deferred) record names the side not to move — the mover — as winner and the
visible record is untouched until the delay fires; for flag-fall the winner
is the side whose clock has not reached zero; for stalemate and generic
draws the record is set synchronously with no winner, and only `running` and
`gameOver` change (in particular no cue and no celebratory effect). -/
theorem game_over_attribution (E : EngineIface γ) (s : Session γ) :
    (E.isGameOver s.game = true → E.isCheckmate s.game = true →
      (updateGameOverBanner E s).pendingGameOver =
        some ⟨Reason.checkmate, "by checkmate",
          some (if E.turn s.game = Color.w then Color.b else Color.w)⟩ ∧
      (updateGameOverBanner E s).gameOver = s.gameOver) ∧
    (s.whiteTimeMs ≤ 0 → 0 < s.blackTimeMs →
      (onFlag s).pendingGameOver = some ⟨Reason.time, "on time", some Color.b⟩) ∧
    (s.blackTimeMs ≤ 0 → 0 < s.whiteTimeMs →
      (onFlag s).pendingGameOver = some ⟨Reason.time, "on time", some Color.w⟩) ∧
    (E.isGameOver s.game = true → E.isCheckmate s.game = false →
      E.isStalemate s.game = true →
      updateGameOverBanner E s =
        { s with running := false,
                 gameOver := some ⟨Reason.stalemate, "by stalemate", none⟩ }) ∧
    (E.isGameOver s.game = true → E.isCheckmate s.game = false →
      E.isStalemate s.game = false →
      updateGameOverBanner E s =
        { s with running := false,
                 gameOver := some ⟨Reason.draw, "draw", none⟩ }) := by
  refine ⟨fun hover hmate => ?_, fun hw hb => ?_, fun hb hw => ?_,
    fun hover hmate hstale => ?_, fun hover hmate hstale => ?_⟩
  · constructor <;>
      simp [updateGameOverBanner, pauseClocks, launchConfetti, playSound,
        hover, hmate]
  · rw [onFlag_pendingGameOver]
    simp [hw]
  · rw [onFlag_pendingGameOver]
    have : ¬ s.whiteTimeMs ≤ 0 := not_le.mpr hw
    simp [this]
  · simp [updateGameOverBanner, pauseClocks, hover, hmate, hstale]
  · simp [updateGameOverBanner, pauseClocks, hover, hmate, hstale]

/-- Engine representing a position where black has just been checkmated
(black to move, checkmate). -/
def engMate : EngineIface Unit := flagEngine Color.b false true false true none []

/-- Engine representing a stalemate position. -/
def engStale : EngineIface Unit := flagEngine Color.b false false true true none []

/-- A unit session whose white clock has just reached zero. -/
def sFlagW : Session Unit := { baseSession () with whiteTimeMs := 0 }

/-- The expected result of the stalemate branch on a fresh unit session. -/
def sStaleRes : Session Unit :=
  { baseSession () with
      running := false,
      gameOver := some ⟨Reason.stalemate, "by stalemate", none⟩ }

/-- C4 witness: checkmate with black to move awards white (deferred record),
a flag with white at 0 awards black, and stalemate sets the record
synchronously with no winner. -/
theorem game_over_attribution_witness :
    (updateGameOverBanner engMate (baseSession ())).pendingGameOver =
      some ⟨Reason.checkmate, "by checkmate", some Color.w⟩ ∧
    (onFlag sFlagW).pendingGameOver =
      some ⟨Reason.time, "on time", some Color.b⟩ ∧
    updateGameOverBanner engStale (baseSession ()) = sStaleRes := by
  have h := game_over_attribution engMate (baseSession ())
  have h2 := game_over_attribution engStale (baseSession ())
  have h3 := game_over_attribution engWhite sFlagW
  refine ⟨?_, ?_, ?_⟩
  · have := (h.1 rfl rfl).1
    rw [this]
    decide
  · exact h3.2.1 (by decide) (by decide)
  · rw [h2.2.2.2.1 rfl rfl rfl]
    decide

/-! ### Claim C5 -/

/-- Session with a stopped clock but a redoable move on the stack. -/
def sC5 : Session Bool :=
  { baseSession false with running := false, redoStack := [mvE4] }

/-- C5 counterexample: with the clock not running, `redo` still applies the
move and mutates session state, so the claimed not-over/clock-running
precondition check does not exist on the redo path. -/
theorem redo_ignores_preconditions_cex :
    sC5.running = false ∧ (redo toyEngine sC5).game ≠ sC5.game ∧
    (redo toyEngine sC5).lastMoveSquares = ["e2", "e4"] := by decide

/-- C5 (amended): the click and drag-drop resolution paths require the game
not over and the clock running, and violating either precondition makes them
exact no-ops (no session-state change, no cue, including for illegal
destinations); the redo and promotion-choice paths perform no such checks
and apply the move even when the clock is stopped or the game is over. -/
theorem move_preconditions_spec (E : EngineIface γ) :
    (∀ (s : Session γ) (name : String),
      E.isGameOver s.game = true ∨ s.gameOver.isSome = true ∨ s.running = false →
      onSquareClick E s name = s) ∧
    (∀ (s : Session γ) (f t : String),
      E.isGameOver s.game = true ∨ s.gameOver.isSome = true ∨ s.running = false →
      tryMove E s f t = s) ∧
    (∀ (s : Session γ) (m : Mv) (rest : List Mv) (m2 : Mv) (g2 : γ),
      s.redoStack = m :: rest → E.applySan s.game m.san = some (m2, g2) →
      (redo E s).game = g2) ∧
    (∀ (s : Session γ) (piece : PromotePiece) (f t : String) (c : Color)
      (m : Mv) (g2 : γ),
      s.promotion = ⟨true, some c, some f, some t⟩ →
      E.applyPromo s.game f t piece = some (m, g2) →
      (promote E s piece).game = g2) := by
  refine ⟨?_, ?_, ?_, ?_⟩
  · intro s name h
    simp only [onSquareClick]
    split
    · rfl
    · split
      · rfl
      · split
        · rfl
        · split
          · rfl
          · exfalso
            rcases h with h | h | h <;> simp_all
  · intro s f t h
    simp only [tryMove]
    split
    · rfl
    · exfalso
      rcases h with h | h | h <;> simp_all
  · intro s m rest m2 g2 hstack happly
    have hred : redo E s = afterMoveUpdate E
        { s with redoStack := rest, game := g2 } m2 := by
      simp only [redo, hstack, happly]
    rw [hred, afterMoveUpdate_game]
  · intro s piece f t c m g2 hpromo happly
    have hprom : promote E s piece = afterMoveUpdate E
        { s with promotion := ⟨false, none, none, none⟩, game := g2 } m := by
      simp only [promote, hpromo, happly]
    rw [hprom, afterMoveUpdate_game]

/-- C5 witness: with the clock stopped, a click is an exact no-op while a
redo still applies the scripted move. -/
theorem move_preconditions_spec_witness :
    sC5.running = false ∧
    onSquareClick toyEngine sC5 "e2" = sC5 ∧
    tryMove toyEngine sC5 "e2" "e4" = sC5 ∧
    (redo toyEngine sC5).game = true := by
  have h := move_preconditions_spec (γ := Bool) toyEngine
  refine ⟨rfl, h.1 sC5 "e2" (Or.inr (Or.inr rfl)),
    h.2.1 sC5 "e2" "e4" (Or.inr (Or.inr rfl)), ?_⟩
  exact h.2.2.1 sC5 mvE4 [] mvE4 true (by decide) (by decide)

/-! ### Claim C6 -/

/-- Engine for the reset scenario: nothing terminal, reset is the identity
on the unit position. -/
def engReset : EngineIface Unit := flagEngine Color.w false false false false none []

/-- A session in the 1500 ms window after a checkmate was detected: the
celebration has fired and the game-over record is scheduled but not yet
visible. -/
def sC6 : Session Unit :=
  { baseSession () with
      pendingGameOver := some ⟨Reason.checkmate, "by checkmate", some Color.w⟩ }

/-- C6: the code contradicts the claim on the reset path. `reset` never
clears `gameOverTimeoutId`, so the deferred record survives a reset and the
stale game-over banner appears on the fresh game when the timeout fires;
only `dismissGameOver` cancels the scheduled reveal as the claim demands.
Evaluated at the failing input: pending checkmate record, then `reset`,
then the timeout fires. -/
theorem reset_leaves_stale_game_over :
    (reset engReset sC6).pendingGameOver =
      some ⟨Reason.checkmate, "by checkmate", some Color.w⟩ ∧
    (fireGameOverTimeout (reset engReset sC6)).gameOver =
      some ⟨Reason.checkmate, "by checkmate", some Color.w⟩ ∧
    (dismissGameOver sC6).pendingGameOver = none ∧
    (fireGameOverTimeout (dismissGameOver sC6)).gameOver = none := by decide

/-! ### Claim C7 -/

/-- Engine with a white pawn poised on its one scripted move, white to move,
not in check. -/
def engPiece : EngineIface Unit :=
  flagEngine Color.w false false false false (some ⟨'p', Color.w⟩) [mvE4]

/-- C7 counterexample: a touch press on a piece of the side to move sets
`selected` immediately, before any drag threshold could be crossed,
contradicting the claim for the touch modality. -/
theorem touch_press_sets_selection_cex :
    (baseSession ()).selected = none ∧
    (onPieceTouchStart engPiece (baseSession ()) "e2" 1 10 10).selected =
      some "e2" := by decide

/-- C7 (amended): pointer and mouse presses never change `selected`; on
those modalities selection is set exactly when the 4-pixel threshold is
crossed during a move event, so a press released without crossing it leaves
selection to the click handler. The touch modality deviates: a successful
touch press sets `selected` to the pressed square immediately. -/
theorem drag_selection_spec (E : EngineIface γ) :
    (∀ (s : Session γ) (f : String) (ptype : PointerKind) (button x y : Int),
      (onPiecePointerDown E s f ptype button x y).selected = s.selected) ∧
    (∀ (s : Session γ) (f : String) (button x y : Int),
      (onMouseDownPiece E s f button x y).selected = s.selected) ∧
    (∀ (s : Session γ) (td : TouchDrag) (x y : Int) (over : Option String),
      s.touchDrag = some td → td.moved = false →
      (x - td.startX) * (x - td.startX) + (y - td.startY) * (y - td.startY) > 16 →
      (onGlobalPointerMove s x y over).selected = some td.fromSq ∧
      (onGlobalMouseMove s x y over).selected = some td.fromSq) ∧
    (∀ (s : Session γ) (td : TouchDrag) (x y : Int) (over : Option String),
      s.touchDrag = some td →
      ¬((x - td.startX) * (x - td.startX) + (y - td.startY) * (y - td.startY) > 16) →
      (onGlobalPointerMove s x y over).selected = s.selected ∧
      (onGlobalMouseMove s x y over).selected = s.selected) ∧
    (∀ (s : Session γ) (f : String) (x y : Int) (p : Piece),
      s.promotion.ask = false → E.isGameOver s.game = false → s.gameOver = none →
      E.pieceAt s.game f = some p → p.color = E.turn s.game →
      (E.isCheck s.game = false ∨ (E.movesFrom s.game f).isEmpty = false) →
      (onPieceTouchStart E s f 1 x y).selected = some f) := by
  refine ⟨?_, ?_, ?_, ?_, ?_⟩
  · intro s f ptype button x y
    simp only [onPiecePointerDown, playSound, triggerCheckFlash]
    repeat' split
    all_goals rfl
  · intro s f button x y
    simp only [onMouseDownPiece, playSound, triggerCheckFlash]
    repeat' split
    all_goals rfl
  · intro s td x y over h1 h2 h3
    constructor <;>
      simp [onGlobalPointerMove, onGlobalMouseMove, h1, h2, h3]
  · intro s td x y over h1 h3
    constructor <;>
      simp [onGlobalPointerMove, onGlobalMouseMove, h1, h3]
  · intro s f x y p hask hover hgo hpiece hcolor hsel
    rcases hsel with hc | hm
    · simp [onPieceTouchStart, hask, hover, hgo, hpiece, hcolor, hc]
    · simp [onPieceTouchStart, hask, hover, hgo, hpiece, hcolor, hm]

/-- A drag in progress from e2 whose press origin is the point (0, 0). -/
def sDrag : Session Unit :=
  { baseSession () with touchDrag := some ⟨"e2", 0, 0, false, none⟩ }

/-- C7 witness: a pointer press leaves selection empty, a 5-pixel pointer
move sets it, a 3-pixel move does not, and a touch press selects at once. -/
theorem drag_selection_spec_witness :
    (onPiecePointerDown engPiece (baseSession ()) "e2" PointerKind.touch 0 0 0).selected
      = none ∧
    (onGlobalPointerMove sDrag 5 0 none).selected = some "e2" ∧
    (onGlobalPointerMove sDrag 3 0 none).selected = none ∧
    (onPieceTouchStart engPiece (baseSession ()) "e2" 1 0 0).selected = some "e2" := by
  have h := drag_selection_spec (γ := Unit) engPiece
  refine ⟨h.1 (baseSession ()) "e2" PointerKind.touch 0 0 0, ?_, ?_, ?_⟩
  · exact (h.2.2.1 sDrag ⟨"e2", 0, 0, false, none⟩ 5 0 none rfl rfl (by decide)).1
  · exact (h.2.2.2.1 sDrag ⟨"e2", 0, 0, false, none⟩ 3 0 none rfl (by decide)).1
  · exact h.2.2.2.2 (baseSession ()) "e2" 0 0 ⟨'p', Color.w⟩ rfl rfl rfl rfl rfl
      (Or.inl rfl)

/-! ### Claim C8 -/

/-- C8: in the idle state (nothing selected) a tap on an occupied square of
the side to move selects it, unless the side to move is in check and the
tapped piece has no legal moves, in which case a check flash and the
illegal cue are emitted and nothing else changes, so selection stays
empty. -/
theorem idle_tap_selection_spec (E : EngineIface γ) (s : Session γ) (name : String)
    (p : Piece)
    (hsup : s.suppressActive = false) (hask : s.promotion.ask = false)
    (hover : E.isGameOver s.game = false) (hgo : s.gameOver = none)
    (hrun : s.running = true) (hsel : s.selected = none)
    (hpiece : E.pieceAt s.game name = some p) (hturn : p.color = E.turn s.game) :
    (E.isCheck s.game = true → E.movesFrom s.game name = [] →
      onSquareClick E s name =
        { s with cues := s.cues ++ [Cue.checkFlash, Cue.sound CueKind.illegal] }) ∧
    ((E.isCheck s.game = false ∨ (E.movesFrom s.game name).isEmpty = false) →
      onSquareClick E s name = { s with selected := some name }) := by
  constructor
  · intro hchk hmv
    simp [onSquareClick, playSound, triggerCheckFlash,
      hsup, hask, hover, hgo, hrun, hsel, hpiece, hturn, hchk, hmv]
  · intro hsafe
    rcases hsafe with hc | hm
    · simp [onSquareClick, hsup, hask, hover, hgo, hrun, hsel, hpiece, hturn, hc]
    · simp [onSquareClick, hsup, hask, hover, hgo, hrun, hsel, hpiece, hturn, hm]

/-- Engine for the in-check / no-legal-move branch: white to move, in
check, the tapped piece has no legal moves. -/
def engChecked : EngineIface Unit :=
  flagEngine Color.w true false false false (some ⟨'n', Color.w⟩) []

/-- The trapped-piece tap outcome: only the cue trace grows. -/
def sFlashRes : Session Unit :=
  { baseSession () with
      cues := [Cue.checkFlash, Cue.sound CueKind.illegal] }

/-- C8 witness: a tap on a piece with moves selects it; a tap on a trapped
piece while in check flashes, emits the illegal cue and selects nothing. -/
theorem idle_tap_selection_spec_witness :
    onSquareClick engPiece (baseSession ()) "e2" =
      { baseSession () with selected := some "e2" } ∧
    onSquareClick engChecked (baseSession ()) "e2" = sFlashRes ∧
    (onSquareClick engChecked (baseSession ()) "e2").selected = none := by
  have h1 := (idle_tap_selection_spec engPiece (baseSession ()) "e2" ⟨'p', Color.w⟩
    rfl rfl rfl rfl rfl rfl rfl rfl).2 (Or.inl rfl)
  have h2 := (idle_tap_selection_spec engChecked (baseSession ()) "e2" ⟨'n', Color.w⟩
    rfl rfl rfl rfl rfl rfl rfl rfl).1 rfl rfl
  refine ⟨h1, ?_, ?_⟩ <;> rw [h2] <;> rfl

/-! ### Claim C9 -/

/-- Session with e4 selected and a lastMove highlight set. -/
def sC9 : Session Unit :=
  { baseSession () with selected := some "e4", lastMoveSquares := ["e2", "e4"] }

/-- C9 counterexample: tapping the currently selected square deselects it
but also clears the lastMove highlight, contradicting the claimed frame
condition that `lastMove` is unchanged by the deselection. -/
theorem deselect_clears_lastMove_cex :
    sC9.lastMoveSquares = ["e2", "e4"] ∧
    (onSquareClick engReset sC9 "e4").selected = none ∧
    (onSquareClick engReset sC9 "e4").lastMoveSquares = [] := by decide

/-- C9 (amended): tapping the currently selected square runs
`clearSelection`, which sets `selected` to none and also clears the
lastMove highlight pair; nothing else in the session changes. -/
theorem deselect_spec (E : EngineIface γ) (s : Session γ) (name : String)
    (hsup : s.suppressActive = false) (hask : s.promotion.ask = false)
    (hover : E.isGameOver s.game = false) (hgo : s.gameOver = none)
    (hrun : s.running = true) (hsel : s.selected = some name) :
    onSquareClick E s name =
      { s with selected := none, lastMoveSquares := [] } := by
  simp [onSquareClick, clearSelection, hsup, hask, hover, hgo, hrun, hsel]

/-- C9 witness: the deselection evaluated on the concrete session. -/
theorem deselect_spec_witness :
    onSquareClick engReset sC9 "e4" =
      { sC9 with selected := none, lastMoveSquares := [] } :=
  deselect_spec engReset sC9 "e4" rfl rfl rfl rfl rfl rfl

/-! ### Claim C10 -/

/-- C10: `promote` is a no-op when no promotion is pending or any pending
field is null; when a fully populated promotion is pending the call always
clears the pending record — and when the engine rejects the held move,
clearing the record is the only change (no move is committed, the engine
state and history are untouched). -/
theorem promote_spec (E : EngineIface γ) (s : Session γ) (piece : PromotePiece) :
    ((s.promotion.ask = false ∨ s.promotion.color = none ∨
      s.promotion.fromSq = none ∨ s.promotion.toSq = none) →
      promote E s piece = s) ∧
    (∀ (f t : String) (c : Color), s.promotion = ⟨true, some c, some f, some t⟩ →
      (promote E s piece).promotion = ⟨false, none, none, none⟩ ∧
      (E.applyPromo s.game f t piece = none →
        promote E s piece = { s with promotion := ⟨false, none, none, none⟩ })) := by
  constructor
  · intro h
    unfold promote
    rcases hA : s.promotion.ask <;>
      rcases hC : s.promotion.color with _ | c <;>
      rcases hF : s.promotion.fromSq with _ | f <;>
      rcases hT : s.promotion.toSq with _ | t <;>
      simp_all
  · intro f t c hpromo
    constructor
    · rcases happ : E.applyPromo s.game f t piece with _ | ⟨m, g2⟩
      · simp [promote, hpromo, happ]
      · simp only [promote, hpromo, happ]
        rw [afterMoveUpdate_promotion]
    · intro happ
      simp [promote, hpromo, happ]

/-- Session with a fully populated pending promotion (white pawn e7-e8). -/
def sPromo : Session Bool :=
  { baseSession true with
      promotion := ⟨true, some Color.w, some "e7", some "e8"⟩ }

/-- C10 witness: on a session with no pending promotion the call is a no-op;
on a pending promotion that the stub engine rejects, the only change is the
cleared pending record. -/
theorem promote_spec_witness :
    promote toyEngine (baseSession true) PromotePiece.q = baseSession true ∧
    (promote toyEngine sPromo PromotePiece.q).promotion =
      ⟨false, none, none, none⟩ ∧
    promote toyEngine sPromo PromotePiece.q =
      { sPromo with promotion := ⟨false, none, none, none⟩ } ∧
    (promote toyEngine sPromo PromotePiece.q).game = sPromo.game := by
  have h0 := (promote_spec (γ := Bool) toyEngine (baseSession true)
    PromotePiece.q).1 (Or.inl rfl)
  have h := (promote_spec (γ := Bool) toyEngine sPromo PromotePiece.q).2
    "e7" "e8" Color.w rfl
  refine ⟨h0, h.1, h.2 rfl, ?_⟩
  rw [h.2 rfl]

end MegClone
